import Mathlib

/-!
Verification of the workshop RSVP registration subsystem of `pretalx`
(`src/pretalx/submission/handleRSVP.py`).

The Python code is shallowly embedded below:
* Python string operations (`str.strip`, `str.replace("-","")`,
  `str.splitlines`, `csv.reader` row splitting) are modelled as executable
  functions over `List Char` / `String`.  `str.strip()` removes the full
  Python whitespace set (`isPySpace`); `str.splitlines()` splits at every
  Python line boundary — `\n`, `\r`, `\r\n` (one boundary), `\x0b`,
  `\x0c`, `\x1c`-`\x1e`, `\x85`, `\u2028`, `\u2029` (`isLineBreak`,
  `splitLinesList`).  The `csv.reader` model (`csvParseLine`) is the plain
  comma split, which agrees with Python's `csv.reader` on lines whose
  fields contain no double-quote character; theorems that quantify over
  field contents therefore carry a quote-freeness hypothesis.
* `hashlib.sha256(...).hexdigest()` is implemented in full
  (`sha256hexStr`), over `Nat` with explicit reduction mod 2^32.
* Exceptions are modelled with `Option`: `registeredForWorkshop` returns
  `none` when the Python original would raise `IndexError`, and the
  caller's blanket `except` clauses are translated into the corresponding
  `"1"` results.
* The mutable `Submission` ORM object is a record passed and returned
  explicitly; `submission.save()` persists the whole record, so a saved
  value simply replaces the stored one.
* The `print`/`logging.info` calls of `checkAttendee` are collected in a
  returned `List String` (third component).  The reprs printed for
  non-string objects (the submission object, parsed csv rows) and the
  trace strings inside the two helper functions never involve the raw
  request secret and are summarised by placeholder entries.
-/

/-! ## Python string primitives -/

/-- The characters Python's `str.strip()` removes: code points 9-13,
28-32, 0x85, 0xa0, 0x1680, 0x2000-0x200a, 0x2028, 0x2029, 0x202f,
0x205f, 0x3000 (exactly the characters with `str.isspace()` true). -/
def isPySpace (c : Char) : Bool :=
  let n := c.toNat
  (9 ≤ n && n ≤ 13) || (28 ≤ n && n ≤ 32) || n == 133 || n == 160 ||
  n == 5760 || (8192 ≤ n && n ≤ 8202) || n == 8232 || n == 8233 ||
  n == 8239 || n == 8287 || n == 12288

/-- The single characters at which Python's `str.splitlines()` breaks a
line: code points 10-13, 28-30, 0x85, 0x2028, 0x2029 (`\r\n` counts as
one boundary, handled in `splitLinesList`). -/
def isLineBreak (c : Char) : Bool :=
  let n := c.toNat
  (10 ≤ n && n ≤ 13) || n == 28 || n == 29 || n == 30 || n == 133 ||
  n == 8232 || n == 8233

/-- `str.strip()` on a character list. -/
def pyStripList (l : List Char) : List Char :=
  ((l.dropWhile isPySpace).reverse.dropWhile isPySpace).reverse

/-- Python `s.strip()`. -/
def pyStrip (s : String) : String := ⟨pyStripList s.data⟩

/-- Python `s.replace("-", "")`: remove every dash. -/
def stripDashes (s : String) : String := ⟨s.data.filter (fun c => !(c == '-'))⟩

/-- Split a character list at every occurrence of `c` (Python
`str.split(c)` semantics: always at least one group, empty groups kept). -/
def splitOnChar (c : Char) : List Char → List (List Char)
  | [] => [[]]
  | x :: xs =>
    match splitOnChar c xs with
    | [] => [[x]]
    | g :: gs => if x == c then [] :: g :: gs else (x :: g) :: gs

/-- One row of Python's `csv.reader(..., delimiter=',')`: a blank line
yields the empty row, otherwise the line is split at commas.  Faithful to
`csv.reader` for lines containing no double-quote character. -/
def csvParseLine (line : String) : List String :=
  if line.data.isEmpty then [] else (splitOnChar ',' line.data).map (fun l => (⟨l⟩ : String))

/-- Python `s.splitlines()` on a character list: break at every
`isLineBreak` character, treating `\r\n` as a single boundary; line
terminators are not kept and a trailing terminator produces no final
empty line. -/
def splitLinesList : List Char → List (List Char)
  | [] => []
  | c :: rest =>
    if isLineBreak c then
      match rest with
      | [] => [[]]
      | c2 :: r =>
        if c == '\r' && c2 == '\n' then [] :: splitLinesList r
        else [] :: splitLinesList (c2 :: r)
    else
      match splitLinesList rest with
      | [] => [[c]]
      | g :: gs => (c :: g) :: gs

/-- Python `s.splitlines()`. -/
def pySplitlines (s : String) : List String :=
  (splitLinesList s.data).map (fun l => (⟨l⟩ : String))

/-- Concatenation of a list of lists. -/
def concatAll {α : Type} : List (List α) → List α
  | [] => []
  | x :: xs => x ++ concatAll xs

/-! ## SHA-256 (`hashlib.sha256(... .encode('utf-8')).hexdigest()`)

All arithmetic is over `Nat`, reduced mod `2^32` where the original
operates on 32-bit words. -/

/-- Reduce to a 32-bit word. -/
def w32 (n : Nat) : Nat := n % 4294967296

/-- 32-bit right rotation. -/
def rotr32 (n x : Nat) : Nat := w32 ((x >>> n) ||| (x <<< (32 - n)))

/-- 32-bit bitwise complement. -/
def wnot (x : Nat) : Nat := w32 (x ^^^ 4294967295)

def bigSigma0 (x : Nat) : Nat := rotr32 2 x ^^^ rotr32 13 x ^^^ rotr32 22 x

def bigSigma1 (x : Nat) : Nat := rotr32 6 x ^^^ rotr32 11 x ^^^ rotr32 25 x

def smallSigma0 (x : Nat) : Nat := rotr32 7 x ^^^ rotr32 18 x ^^^ (x >>> 3)

def smallSigma1 (x : Nat) : Nat := rotr32 17 x ^^^ rotr32 19 x ^^^ (x >>> 10)

def shaCh (x y z : Nat) : Nat := (x &&& y) ^^^ (wnot x &&& z)

def shaMaj (x y z : Nat) : Nat := (x &&& y) ^^^ (x &&& z) ^^^ (y &&& z)

/-- SHA-256 round constants. -/
def shaK : List Nat :=
  [1116352408, 1899447441, 3049323471, 3921009573, 961987163, 1508970993, 2453635748, 2870763221,
   3624381080, 310598401, 607225278, 1426881987, 1925078388, 2162078206, 2614888103, 3248222580,
   3835390401, 4022224774, 264347078, 604807628, 770255983, 1249150122, 1555081692, 1996064986,
   2554220882, 2821834349, 2952996808, 3210313671, 3336571891, 3584528711, 113926993, 338241895,
   666307205, 773529912, 1294757372, 1396182291, 1695183700, 1986661051, 2177026350, 2456956037,
   2730485921, 2820302411, 3259730800, 3345764771, 3516065817, 3600352804, 4094571909, 275423344,
   430227734, 506948616, 659060556, 883997877, 958139571, 1322822218, 1537002063, 1747873779,
   1955562222, 2024104815, 2227730452, 2361852424, 2428436474, 2756734187, 3204031479, 3329325298]

/-- SHA-256 initial hash state. -/
def shaH0 : List Nat :=
  [1779033703, 3144134277, 1013904242, 2773480762, 1359893119, 2600822924, 528734635, 1541459225]

/-- UTF-8 encoding of one character, as byte values. -/
def utf8Char (c : Char) : List Nat :=
  let n := c.toNat
  if n < 128 then [n]
  else if n < 2048 then [192 ||| (n >>> 6), 128 ||| (n &&& 63)]
  else if n < 65536 then
    [224 ||| (n >>> 12), 128 ||| ((n >>> 6) &&& 63), 128 ||| (n &&& 63)]
  else
    [240 ||| (n >>> 18), 128 ||| ((n >>> 12) &&& 63),
     128 ||| ((n >>> 6) &&& 63), 128 ||| (n &&& 63)]

/-- Python `s.encode('utf-8')` as a byte list. -/
def utf8Encode (s : String) : List Nat := concatAll (s.data.map utf8Char)

/-- `n` bytes of `v`, big-endian. -/
def bytesBE : Nat → Nat → List Nat
  | 0, _ => []
  | n + 1, v => bytesBE n (v >>> 8) ++ [v &&& 255]

/-- SHA-256 message padding: `0x80`, zeros to 56 mod 64, 8-byte bit length. -/
def padMessage (msg : List Nat) : List Nat :=
  let len := msg.length
  let k := (119 - len % 64) % 64
  msg ++ [128] ++ List.replicate k 0 ++ bytesBE 8 (8 * len)

/-- Split a byte list into 64-byte blocks. -/
def toBlocks (l : List Nat) : List (List Nat) :=
  if h : l = [] then [] else l.take 64 :: toBlocks (l.drop 64)
termination_by l.length
decreasing_by
  simp only [List.length_drop]
  have : l.length ≠ 0 := fun hz => h (List.eq_nil_of_length_eq_zero hz)
  omega

/-- Group bytes into big-endian 32-bit words. -/
def bytesToWords : List Nat → List Nat
  | b0 :: b1 :: b2 :: b3 :: rest => (((b0 * 256 + b1) * 256 + b2) * 256 + b3) :: bytesToWords rest
  | _ => []

/-- Append the next word of the SHA-256 message schedule. -/
def stepSchedule (ws : List Nat) : List Nat :=
  ws ++ [w32 (smallSigma1 (ws.getD (ws.length - 2) 0) + ws.getD (ws.length - 7) 0 +
              smallSigma0 (ws.getD (ws.length - 15) 0) + ws.getD (ws.length - 16) 0)]

/-- Iterate `stepSchedule`. -/
def buildSchedule (ws : List Nat) : Nat → List Nat
  | 0 => ws
  | n + 1 => stepSchedule (buildSchedule ws n)

/-- One SHA-256 compression round; `kw` is `K[i] + W[i]` mod 2^32. -/
def roundStep (st : List Nat) (kw : Nat) : List Nat :=
  match st with
  | [a, b, c, d, e, f, g, h] =>
    let t1 := w32 (h + bigSigma1 e + shaCh e f g + kw)
    let t2 := w32 (bigSigma0 a + shaMaj a b c)
    [w32 (t1 + t2), a, b, c, w32 (d + t1), e, f, g]
  | _ => st

/-- Compress one 64-byte block into the running hash state. -/
def compressBlock (h0 : List Nat) (block : List Nat) : List Nat :=
  let ws := buildSchedule (bytesToWords block) 48
  let kws := List.zipWith (fun k w => w32 (k + w)) shaK ws
  let st := kws.foldl roundStep h0
  List.zipWith (fun x y => w32 (x + y)) h0 st

/-- SHA-256 digest of a byte list, as eight 32-bit words. -/
def sha256Words (msg : List Nat) : List Nat :=
  (toBlocks (padMessage msg)).foldl compressBlock shaH0

/-- Lower-case hex digit for `m`, `m < 16`. -/
def hexCharAux (m : Nat) : Char :=
  if m < 10 then Char.ofNat (48 + m) else Char.ofNat (87 + m)

/-- Lower-case hex digit of `n % 16`. -/
def hexChar (n : Nat) : Char := hexCharAux (n % 16)

/-- Eight hex digits of a 32-bit word, big-endian. -/
def wordToHex (w : Nat) : List Char :=
  [hexChar (w >>> 28), hexChar (w >>> 24), hexChar (w >>> 20), hexChar (w >>> 16),
   hexChar (w >>> 12), hexChar (w >>> 8), hexChar (w >>> 4), hexChar w]

/-- Python `hashlib.sha256(s.encode('utf-8')).hexdigest()`. -/
def sha256hexStr (s : String) : String :=
  ⟨concatAll ((sha256Words (utf8Encode s)).map wordToHex)⟩

/-! ## Data model

`Submission` models the two ledger fields of the `Submission` ORM model
that `handleRSVP.py` touches: the free-text `attendees` field (nullable)
and the `attendeeRSVP` counter (nullable). -/

structure Request where
  name : Option String
  email : Option String
  authKey : Option String

structure Submission where
  attendees : Option String
  attendeeRSVP : Option Nat

structure AttendeeInfo where
  name : String
  email : String
  hashed : String

/-- The empty ledger: both nullable fields unset. -/
def emptySubmission : Submission := ⟨none, none⟩

/-! ## `handleRSVP.py` -/

/-- Source lines 61 and 64: the free-text attendee record appended to the
`attendees` field: `name + " " + email + "," + hashed`. -/
def recordLine (info : AttendeeInfo) : String :=
  info.name ++ " " ++ info.email ++ "," ++ info.hashed

/-- `registerAttendee(attendeeInfo, submission)` (source lines 56-82):
append the record line (newline-separated), bump the counter (None counts
as 0), save, return `True`. -/
def registerAttendee (info : AttendeeInfo) (sub : Submission) : Submission × Bool :=
  let att := match sub.attendees with
    | none => recordLine info
    | some s => s ++ "\n" ++ recordLine info
  let cnt := match sub.attendeeRSVP with
    | none => 1
    | some n => n + 1
  (⟨some att, some cnt⟩, true)

/-- The dedup scan of `registeredForWorkshop` (source lines 96-103):
skip empty rows; `row[1]` raises `IndexError` (modelled as `none`) on a
non-empty row with no second field; otherwise compare the stripped second
field against the stripped hash. -/
def scanRows (hashed : String) : List (List String) → Option Bool
  | [] => some false
  | row :: rest =>
    if row.isEmpty then scanRows hashed rest
    else match row[1]? with
      | none => none
      | some f => if pyStrip f == pyStrip hashed then some true else scanRows hashed rest

/-- `registeredForWorkshop(attendeeInfo, submission)` (source lines
84-103).  `none` models an uncaught `IndexError` from the row scan. -/
def registeredForWorkshop (info : AttendeeInfo) (sub : Submission) : Option Bool :=
  match sub.attendees with
  | none => some false
  | some s =>
    if s == "" then some false
    else scanRows info.hashed ((pySplitlines s).map csvParseLine)

/-- The registration unit executed once a roster line matches (source
lines 35-45): dedup check, then append-and-count on a miss.  Result codes
are the source's strings: `"3"` already registered, `"2"` success, `"1"`
fail (here: the `IndexError` escaping to the caller's blanket `except`). -/
def registerUnit (info : AttendeeInfo) (sub : Submission) : String × Submission :=
  match registeredForWorkshop info sub with
  | none => ("1", sub)
  | some true => ("3", sub)
  | some false =>
    let r := registerAttendee info sub
    (if r.2 then "2" else "1", r.1)

/-- Source line 33's per-line credential test:
`authKey == line.replace("-","").strip()`. -/
def lineMatches (authKey line : String) : Bool := authKey == pyStrip (stripDashes line)

/-- The roster loop of `checkAttendee` (source lines 31-47): print each
normalized line, run `registerUnit` at the first match, return `"1"` when
the file is exhausted.  The third component collects printed/logged
strings. -/
def rosterScan (authKey : String) (info : AttendeeInfo) (sub : Submission) :
    List String → String × Submission × List String
  | [] => ("1", sub, ["fail D"])
  | line :: rest =>
    let norm := pyStrip (stripDashes line)
    if lineMatches authKey line then
      let r := registerUnit info sub
      (r.1, r.2,
        norm :: (if r.1 == "3" then ["valid attendee add to list", "already"]
                 else if r.1 == "2" then
                   ["valid attendee add to list", "registering attendee", "sucess"]
                 else ["valid attendee add to list", "registering attendee", "fail C"]))
    else
      let r := rosterScan authKey info sub rest
      (r.1, r.2.1, norm :: r.2.2)

/-- `checkAttendee(request, submission)` (source lines 8-54).  The roster
file handle is `roster`: `none` models an unreadable
`/var/pretalx/data/attendee-secret-codes-hashed` (the `open` raises and
the blanket `except` returns `"1"`), `some lines` the file's lines.
A missing `email` or `authKey` POST key raises `KeyError`, caught by the
same blanket `except`; a missing `name` is defaulted to `""` by its own
`try`.  Returns (result code, saved submission, printed/logged output).
The `"<submission>"` entry stands for line 27's repr of the submission
object (its title — external to this subsystem). -/
def checkAttendee (req : Request) (roster : Option (List String)) (sub : Submission) :
    String × Submission × List String :=
  let log0 := ["in register RSVP", "check if valid attentt"]
  match req.email with
  | none => ("1", sub, log0 ++ ["fail C"])
  | some email =>
    match req.authKey with
    | none => ("1", sub, log0 ++ ["fail C"])
    | some rawKey =>
      let name := (req.name).getD ""
      let authKey := sha256hexStr rawKey
      let info : AttendeeInfo := ⟨name, email, authKey⟩
      let log1 := log0 ++ [rawKey, authKey, authKey, name, email, "<submission>", "key done"]
      match roster with
      | none => ("1", sub, log1 ++ ["fail C"])
      | some lines =>
        let r := rosterScan authKey info sub lines
        (r.1, r.2.1, log1 ++ r.2.2)

/-- Result code of a `checkAttendee` call. -/
def caResult (req : Request) (roster : Option (List String)) (sub : Submission) : String :=
  (checkAttendee req roster sub).1

/-- Submission state after a `checkAttendee` call. -/
def caSub (req : Request) (roster : Option (List String)) (sub : Submission) : Submission :=
  (checkAttendee req roster sub).2.1

/-- Printed/logged output of a `checkAttendee` call. -/
def caLog (req : Request) (roster : Option (List String)) (sub : Submission) : List String :=
  (checkAttendee req roster sub).2.2

/-- Run a sequence of registration calls against one workshop, returning
the result codes and the final submission state. -/
def runRSVP (roster : Option (List String)) : List Request → Submission → List String × Submission
  | [], sub => ([], sub)
  | r :: rs, sub =>
    let step := checkAttendee r roster sub
    let rest := runRSVP roster rs step.2.1
    (step.1 :: rest.1, rest.2)

/-! ## Observables -/

/-- The stored attendee records of a workshop, as the program itself
reads them back: the lines of the `attendees` text field. -/
def linesOf (sub : Submission) : List String :=
  match sub.attendees with
  | none => []
  | some s => pySplitlines s

/-- The `credential_hash` field of a stored record, as the dedup scan
reads it: the second comma-separated field (`""` when absent). -/
def hashOfLine (l : String) : String := (csvParseLine l).getD 1 ""

/-- The workshop's attendance counter, reading the unset field as 0. -/
def countVal (sub : Submission) : Nat := (sub.attendeeRSVP).getD 0

/-! ## Field predicates

`cleanCharB` excludes exactly the characters whose presence in a
name/email field makes the stored free-text record diverge from one
record per line with the hash as second csv field: the comma (extra csv
fields), every Python line-boundary character (extra lines on the
`splitlines` read-back), and the double quote (where the `csv.reader`
model above is not faithful). -/

def isHexLower (c : Char) : Bool :=
  (48 ≤ c.toNat && c.toNat ≤ 57) || (97 ≤ c.toNat && c.toNat ≤ 102)

/-- Every character is a lower-case hex digit. -/
def hexStrB (s : String) : Bool := s.data.all isHexLower

def cleanCharB (c : Char) : Bool :=
  !(c == ',') && !(c == '"') && !(isLineBreak c)

def cleanStrB (s : String) : Bool := s.data.all cleanCharB

def cleanOptB : Option String → Bool
  | none => true
  | some s => cleanStrB s

/-- The request's optional display fields are clean. -/
def cleanReqB (req : Request) : Bool := cleanOptB req.name && cleanOptB req.email

/-! ## Hex digest facts -/

theorem hexCharAux_hex : ∀ m < 16, isHexLower (hexCharAux m) = true := by decide

theorem hexChar_hex (n : Nat) : isHexLower (hexChar n) = true :=
  hexCharAux_hex (n % 16) (Nat.mod_lt n (by norm_num))

theorem mem_concatAll {α : Type} {a : α} :
    ∀ {ls : List (List α)}, a ∈ concatAll ls → ∃ l ∈ ls, a ∈ l := by
  intro ls h
  induction ls with
  | nil => simp [concatAll] at h
  | cons x xs ih =>
    simp only [concatAll, List.mem_append] at h
    rcases h with h | h
    · exact ⟨x, by simp, h⟩
    · obtain ⟨l, hl, hal⟩ := ih h
      exact ⟨l, by simp [hl], hal⟩

theorem sha256hex_all_hex (s : String) : hexStrB (sha256hexStr s) = true := by
  rw [hexStrB, List.all_eq_true]
  intro c hc
  obtain ⟨l, hl, hcl⟩ := mem_concatAll
    (show c ∈ concatAll ((sha256Words (utf8Encode s)).map wordToHex) from hc)
  obtain ⟨w, _, rfl⟩ := List.mem_map.mp hl
  simp only [wordToHex, List.mem_cons, List.not_mem_nil, or_false] at hcl
  rcases hcl with h | h | h | h | h | h | h | h <;> (subst h; exact hexChar_hex _)

theorem hex_ne_of {c : Char} (h : isHexLower c = true) {x : Char}
    (hx : isHexLower x = false) : c ≠ x := by
  intro he
  rw [he, hx] at h
  exact absurd h (by decide)

theorem hex_toNat_bounds {c : Char} (h : isHexLower c = true) :
    (48 ≤ c.toNat ∧ c.toNat ≤ 57) ∨ (97 ≤ c.toNat ∧ c.toNat ≤ 102) := by
  simpa [isHexLower] using h

theorem hex_not_space {c : Char} (h : isHexLower c = true) : isPySpace c = false := by
  have hb := hex_toNat_bounds h
  simp only [isPySpace, Bool.or_eq_false_iff, Bool.and_eq_false_iff,
    decide_eq_false_iff_not, Nat.not_le, beq_eq_false_iff_ne, ne_eq]
  omega

theorem hex_not_break {c : Char} (h : isHexLower c = true) : isLineBreak c = false := by
  have hb := hex_toNat_bounds h
  simp only [isLineBreak, Bool.or_eq_false_iff, Bool.and_eq_false_iff,
    decide_eq_false_iff_not, Nat.not_le, beq_eq_false_iff_ne, ne_eq]
  omega

theorem hex_clean {c : Char} (h : isHexLower c = true) : cleanCharB c = true := by
  have h1 : (c == ',') = false := beq_eq_false_iff_ne.mpr (hex_ne_of h (by decide))
  have h2 : (c == '"') = false := beq_eq_false_iff_ne.mpr (hex_ne_of h (by decide))
  simp [cleanCharB, h1, h2, hex_not_break h]

theorem cleanCharB_not_break {c : Char} (h : cleanCharB c = true) :
    isLineBreak c = false := by
  simp only [cleanCharB, Bool.and_eq_true, Bool.not_eq_true'] at h
  exact h.2

theorem dropWhile_of_all_false {p : Char → Bool} :
    ∀ (l : List Char), (∀ c ∈ l, p c = false) → l.dropWhile p = l := by
  intro l h
  cases l with
  | nil => rfl
  | cons x xs =>
    rw [List.dropWhile_cons, h x (by simp)]
    simp

theorem pyStrip_eq_self {s : String} (h : ∀ c ∈ s.data, isPySpace c = false) :
    pyStrip s = s := by
  show (⟨pyStripList s.data⟩ : String) = s
  rw [pyStripList, dropWhile_of_all_false _ h,
    dropWhile_of_all_false _ (fun c hc => h c (List.mem_reverse.mp hc)), List.reverse_reverse]

theorem stripDashes_eq_self {s : String} (h : ∀ c ∈ s.data, c ≠ '-') :
    stripDashes s = s := by
  show (⟨s.data.filter _⟩ : String) = s
  rw [List.filter_eq_self.mpr (fun c hc => by simp [h c hc])]

theorem hexStrB_mem {s : String} (h : hexStrB s = true) :
    ∀ c ∈ s.data, isHexLower c = true := List.all_eq_true.mp h

theorem hexStrB_pyStrip {s : String} (h : hexStrB s = true) : pyStrip s = s :=
  pyStrip_eq_self (fun c hc => hex_not_space (hexStrB_mem h c hc))

theorem hexStrB_stripDashes {s : String} (h : hexStrB s = true) : stripDashes s = s :=
  stripDashes_eq_self (fun c hc => hex_ne_of (hexStrB_mem h c hc) (by decide))

theorem hexStrB_not_mem {s : String} (h : hexStrB s = true) {c : Char}
    (hc : isHexLower c = false) : c ∉ s.data :=
  fun hm => absurd (hexStrB_mem h c hm) (by simp [hc])

/-- The per-line credential test accepts the line holding the digest itself. -/
theorem lineMatches_self (s : String) :
    lineMatches (sha256hexStr s) (sha256hexStr s) = true := by
  rw [lineMatches, hexStrB_stripDashes (sha256hex_all_hex s),
    hexStrB_pyStrip (sha256hex_all_hex s)]
  exact beq_self_eq_true _

/-! ## Splitting lemmas -/

theorem splitOnChar_ne_nil (c : Char) : ∀ (l : List Char), splitOnChar c l ≠ [] := by
  intro l
  cases l with
  | nil => simp [splitOnChar]
  | cons x xs =>
    rw [splitOnChar]
    cases splitOnChar c xs with
    | nil => simp
    | cons g gs =>
      by_cases hx : x == c <;> simp [hx]

theorem splitOnChar_of_not_mem {c : Char} :
    ∀ {l : List Char}, c ∉ l → splitOnChar c l = [l] := by
  intro l h
  induction l with
  | nil => rfl
  | cons x xs ih =>
    have hx : ¬(x == c) = true := by
      simp only [beq_iff_eq]
      intro he
      exact h (by simp [he])
    rw [splitOnChar, ih (fun hm => h (by simp [hm]))]
    simp [hx]

theorem splitOnChar_append_cons {c : Char} :
    ∀ {a : List Char}, c ∉ a → ∀ (b : List Char),
      splitOnChar c (a ++ c :: b) = a :: splitOnChar c b := by
  intro a ha b
  induction a with
  | nil =>
    rw [List.nil_append, splitOnChar]
    cases hs : splitOnChar c b with
    | nil => exact absurd hs (splitOnChar_ne_nil c b)
    | cons g gs => simp
  | cons x xs ih =>
    have hx : ¬(x == c) = true := by
      simp only [beq_iff_eq]
      intro he
      exact ha (by simp [he])
    rw [List.cons_append, splitOnChar, ih (fun hm => ha (by simp [hm]))]
    simp [hx]

/-! ## Record-shape lemmas -/

theorem recordLine_data (i : AttendeeInfo) :
    (recordLine i).data =
      (i.name.data ++ ' ' :: i.email.data) ++ ',' :: i.hashed.data := by
  simp [recordLine, String.data_append]

theorem recordLine_data_ne_nil (i : AttendeeInfo) : (recordLine i).data ≠ [] := by
  rw [recordLine_data]
  simp

theorem csv_split_two {a h : List Char} (ha : ',' ∉ a) (hh : ',' ∉ h) :
    splitOnChar ',' (a ++ ',' :: h) = [a, h] := by
  rw [splitOnChar_append_cons ha, splitOnChar_of_not_mem hh]

/-- Parsing a record line whose name/email are comma-free and whose hash
field is a hex digest yields exactly the display field and the hash. -/
theorem csvParseLine_recordLine {i : AttendeeInfo}
    (hn : ',' ∉ i.name.data) (he : ',' ∉ i.email.data) (hh : ',' ∉ i.hashed.data) :
    csvParseLine (recordLine i) = [i.name ++ " " ++ i.email, i.hashed] := by
  have hd := recordLine_data i
  have hne : ((i.name.data ++ ' ' :: i.email.data) ++ ',' :: i.hashed.data).isEmpty = false := by
    cases hc : (i.name.data ++ ' ' :: i.email.data) ++ ',' :: i.hashed.data with
    | nil => exact absurd hc (by simp)
    | cons z zs => rfl
  have hca : ',' ∉ i.name.data ++ ' ' :: i.email.data := by
    intro hm
    rcases List.mem_append.mp hm with hm | hm
    · exact hn hm
    · rcases List.mem_cons.mp hm with hm | hm
      · exact absurd hm.symm (by decide)
      · exact he hm
  rw [csvParseLine, hd, hne]
  simp only [Bool.false_eq_true, if_false]
  rw [csv_split_two hca hh]
  simp only [List.map_cons, List.map_nil]
  congr 1
  · apply String.ext
    simp [String.data_append]

/-! ## The stored ledger text -/

/-- The `attendees` text produced by a sequence of appended records:
newline-separated record lines. -/
def joinRecords : List AttendeeInfo → String
  | [] => ""
  | [i] => recordLine i
  | i :: rest => recordLine i ++ "\n" ++ joinRecords rest

theorem joinRecords_cons (i : AttendeeInfo) {rest : List AttendeeInfo} (h : rest ≠ []) :
    joinRecords (i :: rest) = recordLine i ++ "\n" ++ joinRecords rest := by
  cases rest with
  | nil => exact absurd rfl h
  | cons r rs => rfl

theorem joinRecords_append_one {recs : List AttendeeInfo} (h : recs ≠ []) (j : AttendeeInfo) :
    joinRecords (recs ++ [j]) = joinRecords recs ++ "\n" ++ recordLine j := by
  induction recs with
  | nil => exact absurd rfl h
  | cons i rest ih =>
    cases rest with
    | nil => rfl
    | cons r rs =>
      rw [List.cons_append, joinRecords_cons i (by simp),
        joinRecords_cons i (by simp), ih (by simp)]
      apply String.ext
      simp [String.data_append]

theorem joinRecords_data_ne_nil {recs : List AttendeeInfo} (hne : recs ≠ []) :
    (joinRecords recs).data ≠ [] := by
  cases recs with
  | nil => exact absurd rfl hne
  | cons i rest =>
    cases rest with
    | nil => exact recordLine_data_ne_nil i
    | cons r rs =>
      rw [joinRecords_cons i (by simp)]
      simp [String.data_append]

/-- A list free of Python line-boundary characters splits into the single
line it is (when non-empty). -/
theorem splitLinesList_no_break :
    ∀ {l : List Char}, (∀ c ∈ l, isLineBreak c = false) → l ≠ [] →
      splitLinesList l = [l] := by
  intro l h hne
  induction l with
  | nil => exact absurd rfl hne
  | cons c rest ih =>
    have hc : isLineBreak c = false := h c (by simp)
    cases rest with
    | nil => simp [splitLinesList, hc]
    | cons c2 r =>
      have hrest := ih (fun x hx => h x (by simp [hx])) (by simp)
      simp only [splitLinesList, hc, Bool.false_eq_true, if_false]
      rw [hrest]

/-- Unfolding `splitLinesList` at a non-break head character. -/
theorem splitLinesList_cons_no_break {c : Char} (hc : isLineBreak c = false)
    (rest : List Char) :
    splitLinesList (c :: rest) =
      match splitLinesList rest with
      | [] => [[c]]
      | g :: gs => (c :: g) :: gs := by
  cases rest with
  | nil => simp [splitLinesList, hc]
  | cons c2 r => simp only [splitLinesList, hc, Bool.false_eq_true, if_false]

/-- Appending `'\n'` followed by more text after break-free text yields
that text as the first line. -/
theorem splitLinesList_append {a : List Char} (h : ∀ c ∈ a, isLineBreak c = false) :
    ∀ (b : List Char), splitLinesList (a ++ '\n' :: b) = a :: splitLinesList b := by
  induction a with
  | nil =>
    intro b
    cases b with
    | nil => rfl
    | cons c2 r => rfl
  | cons x a ih =>
    intro b
    have hx : isLineBreak x = false := h x (by simp)
    rw [List.cons_append, splitLinesList_cons_no_break hx,
      ih (fun c hc => h c (by simp [hc])) b]

theorem splitLinesList_joinRecords {recs : List AttendeeInfo}
    (h : ∀ i ∈ recs, ∀ c ∈ (recordLine i).data, isLineBreak c = false)
    (hne : recs ≠ []) :
    splitLinesList (joinRecords recs).data =
      recs.map (fun i => (recordLine i).data) := by
  induction recs with
  | nil => exact absurd rfl hne
  | cons i rest ih =>
    cases rest with
    | nil =>
      simp only [joinRecords, List.map_cons, List.map_nil]
      exact splitLinesList_no_break (h i (by simp)) (recordLine_data_ne_nil i)
    | cons r rs =>
      rw [joinRecords_cons i (by simp)]
      have hdata : (recordLine i ++ "\n" ++ joinRecords (r :: rs)).data =
          (recordLine i).data ++ '\n' :: (joinRecords (r :: rs)).data := by
        simp [String.data_append]
      rw [hdata, splitLinesList_append (h i (by simp)),
        ih (fun j hj => h j (by simp [hj])) (by simp)]
      simp

theorem pySplitlines_joinRecords (recs : List AttendeeInfo)
    (h : ∀ i ∈ recs, ∀ c ∈ (recordLine i).data, isLineBreak c = false)
    (hne : recs ≠ []) :
    pySplitlines (joinRecords recs) = recs.map recordLine := by
  rw [pySplitlines, splitLinesList_joinRecords h hne, List.map_map]
  rfl

/-! ## Ledger invariant -/

/-- A record whose display fields are clean (free of commas, double
quotes and every Python line-boundary character) and whose hash field is
a hex digest. -/
def CleanInfoP (i : AttendeeInfo) : Prop :=
  cleanStrB i.name = true ∧ cleanStrB i.email = true ∧ hexStrB i.hashed = true

/-- Well-formedness of the ledger state reachable from the empty ledger
by registration calls with clean display fields: the `attendees` text is
the newline join of clean record lines, the counter equals the number of
records, and the stored hashes are pairwise distinct. -/
def LedgerInv (sub : Submission) : Prop :=
  sub = emptySubmission ∨
  ∃ recs : List AttendeeInfo, recs ≠ [] ∧ (∀ i ∈ recs, CleanInfoP i) ∧
    sub.attendees = some (joinRecords recs) ∧
    sub.attendeeRSVP = some recs.length ∧
    (recs.map (fun i => i.hashed)).Nodup

theorem cleanStrB_not_mem {s : String} (h : cleanStrB s = true) {c : Char}
    (hc : cleanCharB c = false) : c ∉ s.data :=
  fun hm => absurd (List.all_eq_true.mp h c hm) (by simp [hc])

theorem recordLine_no_break {i : AttendeeInfo} (hc : CleanInfoP i) :
    ∀ c ∈ (recordLine i).data, isLineBreak c = false := by
  intro c hm
  rw [recordLine_data] at hm
  rcases List.mem_append.mp hm with hm | hm
  · rcases List.mem_append.mp hm with hm | hm
    · exact cleanCharB_not_break (List.all_eq_true.mp hc.1 c hm)
    · rcases List.mem_cons.mp hm with hm | hm
      · rw [hm]; decide
      · exact cleanCharB_not_break (List.all_eq_true.mp hc.2.1 c hm)
  · rcases List.mem_cons.mp hm with hm | hm
    · rw [hm]; decide
    · exact hex_not_break (hexStrB_mem hc.2.2 c hm)

theorem csvParseLine_record_clean {i : AttendeeInfo} (hc : CleanInfoP i) :
    csvParseLine (recordLine i) = [i.name ++ " " ++ i.email, i.hashed] :=
  csvParseLine_recordLine (cleanStrB_not_mem hc.1 (by decide))
    (cleanStrB_not_mem hc.2.1 (by decide)) (hexStrB_not_mem hc.2.2 (by decide))

theorem scanRows_clean {hashed : String} :
    ∀ {recs : List AttendeeInfo}, (∀ i ∈ recs, CleanInfoP i) →
      scanRows hashed ((recs.map recordLine).map csvParseLine) =
        some (recs.any (fun i => pyStrip i.hashed == pyStrip hashed)) := by
  intro recs hall
  induction recs with
  | nil => simp [scanRows]
  | cons i rest ih =>
    simp only [List.map_cons]
    rw [csvParseLine_record_clean (hall i (by simp))]
    show scanRows hashed ([i.name ++ " " ++ i.email, i.hashed] :: _) = _
    rw [scanRows]
    simp only [List.isEmpty_cons, Bool.false_eq_true, if_false]
    cases hp : (pyStrip i.hashed == pyStrip hashed) with
    | true => simp [hp]
    | false =>
      simp only [List.getElem?_cons_succ, List.getElem?_cons_zero, hp, Bool.false_eq_true,
        if_false]
      rw [ih (fun j hj => hall j (by simp [hj]))]
      simp [hp]

theorem beq_empty_false {s : String} (h : s.data ≠ []) : (s == "") = false := by
  cases hb : s == "" with
  | false => rfl
  | true => exact absurd (congrArg String.data (beq_iff_eq.mp hb)) h

/-- Under the invariant shape, the dedup scan never raises and reports
exactly whether some stored record carries the probed hash. -/
theorem rfw_inv {info : AttendeeInfo} (recs : List AttendeeInfo) {sub : Submission}
    (hatt : sub.attendees = some (joinRecords recs))
    (hall : ∀ i ∈ recs, CleanInfoP i) (hne : recs ≠ []) :
    registeredForWorkshop info sub =
      some (recs.any (fun i => pyStrip i.hashed == pyStrip info.hashed)) := by
  simp only [registeredForWorkshop, hatt]
  rw [beq_empty_false (joinRecords_data_ne_nil hne)]
  simp only [Bool.false_eq_true, if_false]
  rw [pySplitlines_joinRecords recs (fun i hi => recordLine_no_break (hall i hi)) hne]
  exact scanRows_clean hall

/-! ## Control-flow lemmas for the roster loop and entry point -/

theorem rosterScan_no_match {authKey : String} (info : AttendeeInfo) (sub : Submission) :
    ∀ {lines : List String}, (∀ l ∈ lines, lineMatches authKey l = false) →
      (rosterScan authKey info sub lines).1 = "1" ∧
      (rosterScan authKey info sub lines).2.1 = sub := by
  intro lines h
  induction lines with
  | nil => exact ⟨rfl, rfl⟩
  | cons l rest ih =>
    have hl : lineMatches authKey l = false := h l (by simp)
    rw [rosterScan]
    simp only [hl, Bool.false_eq_true, if_false]
    exact ih (fun x hx => h x (by simp [hx]))

theorem rosterScan_match {authKey : String} (info : AttendeeInfo) (sub : Submission) :
    ∀ {lines : List String}, lines.any (fun l => lineMatches authKey l) = true →
      (rosterScan authKey info sub lines).1 = (registerUnit info sub).1 ∧
      (rosterScan authKey info sub lines).2.1 = (registerUnit info sub).2 := by
  intro lines h
  induction lines with
  | nil => simp at h
  | cons l rest ih =>
    cases hl : lineMatches authKey l with
    | true =>
      rw [rosterScan]
      simp [hl]
    | false =>
      rw [List.any_cons, hl, Bool.false_or] at h
      rw [rosterScan]
      simp only [hl, Bool.false_eq_true, if_false]
      exact ih h

/-- The attendee record `checkAttendee` builds from a request (source
lines 12-20): defaulted name, required email, hashed key. -/
def reqInfo (req : Request) (email rawKey : String) : AttendeeInfo :=
  ⟨(req.name).getD "", email, sha256hexStr rawKey⟩

theorem checkAttendee_no_email (req : Request) (roster : Option (List String))
    (sub : Submission) (he : req.email = none) :
    caResult req roster sub = "1" ∧ caSub req roster sub = sub := by
  simp [caResult, caSub, checkAttendee, he]

theorem checkAttendee_no_key (req : Request) (roster : Option (List String))
    (sub : Submission) {email : String} (he : req.email = some email)
    (hk : req.authKey = none) :
    caResult req roster sub = "1" ∧ caSub req roster sub = sub := by
  simp [caResult, caSub, checkAttendee, he, hk]

theorem checkAttendee_no_roster (req : Request) (sub : Submission)
    {email rawKey : String} (he : req.email = some email)
    (hk : req.authKey = some rawKey) :
    caResult req none sub = "1" ∧ caSub req none sub = sub := by
  simp [caResult, caSub, checkAttendee, he, hk]

theorem checkAttendee_no_match (req : Request) {lines : List String} (sub : Submission)
    {email rawKey : String} (he : req.email = some email)
    (hk : req.authKey = some rawKey)
    (hm : ∀ l ∈ lines, lineMatches (sha256hexStr rawKey) l = false) :
    caResult req (some lines) sub = "1" ∧ caSub req (some lines) sub = sub := by
  have h := rosterScan_no_match (reqInfo req email rawKey) sub hm
  simp only [caResult, caSub, checkAttendee, he, hk]
  exact ⟨h.1, h.2⟩

theorem checkAttendee_match (req : Request) {lines : List String} (sub : Submission)
    {email rawKey : String} (he : req.email = some email)
    (hk : req.authKey = some rawKey)
    (hm : lines.any (fun l => lineMatches (sha256hexStr rawKey) l) = true) :
    caResult req (some lines) sub = (registerUnit (reqInfo req email rawKey) sub).1 ∧
    caSub req (some lines) sub = (registerUnit (reqInfo req email rawKey) sub).2 := by
  have h := rosterScan_match (reqInfo req email rawKey) sub hm
  simp only [caResult, caSub, checkAttendee, he, hk]
  exact ⟨h.1, h.2⟩

/-- Exhaustive description of one `checkAttendee` call: either it leaves
the submission untouched and does not report success, or it reports
`"2"` and saves exactly one appended record, having first seen the dedup
scan report `false`. -/
theorem checkAttendee_cases (req : Request) (roster : Option (List String))
    (sub : Submission) :
    (caResult req roster sub ≠ "2" ∧ caSub req roster sub = sub) ∨
    (∃ email rawKey, req.email = some email ∧ req.authKey = some rawKey ∧
      caResult req roster sub = "2" ∧
      registeredForWorkshop (reqInfo req email rawKey) sub = some false ∧
      caSub req roster sub = (registerAttendee (reqInfo req email rawKey) sub).1) := by
  cases he : req.email with
  | none =>
    have h := checkAttendee_no_email req roster sub he
    exact Or.inl ⟨by simp [h.1], h.2⟩
  | some email =>
  cases hk : req.authKey with
  | none =>
    have h := checkAttendee_no_key req roster sub he hk
    exact Or.inl ⟨by simp [h.1], h.2⟩
  | some rawKey =>
  cases roster with
  | none =>
    have h := checkAttendee_no_roster req sub he hk
    exact Or.inl ⟨by simp [h.1], h.2⟩
  | some lines =>
  cases hm : lines.any (fun l => lineMatches (sha256hexStr rawKey) l) with
  | false =>
    have hall : ∀ l ∈ lines, lineMatches (sha256hexStr rawKey) l = false := by
      intro l hl
      have := List.any_eq_false.mp hm l hl
      simpa using this
    have h := checkAttendee_no_match req sub he hk hall
    exact Or.inl ⟨by simp [h.1], h.2⟩
  | true =>
    have h := checkAttendee_match req sub he hk hm
    rcases hrf : registeredForWorkshop (reqInfo req email rawKey) sub with _ | b
    · refine Or.inl ⟨?_, ?_⟩
      · rw [h.1]
        simp [registerUnit, hrf]
      · rw [h.2]
        simp [registerUnit, hrf]
    · cases b with
      | true =>
        refine Or.inl ⟨?_, ?_⟩
        · rw [h.1]
          simp [registerUnit, hrf]
        · rw [h.2]
          simp [registerUnit, hrf]
      | false =>
        refine Or.inr ⟨email, rawKey, rfl, rfl, ?_, hrf, ?_⟩
        · rw [h.1]
          simp [registerUnit, hrf, registerAttendee]
        · rw [h.2]
          simp [registerUnit, hrf]

/-! ## Counter and run lemmas -/

theorem countVal_registerAttendee (info : AttendeeInfo) (sub : Submission) :
    countVal (registerAttendee info sub).1 = countVal sub + 1 := by
  cases h : sub.attendeeRSVP with
  | none => simp [countVal, registerAttendee, h]
  | some n => simp [countVal, registerAttendee, h]

/-- The counter moves by exactly one on a `"2"` outcome and is untouched
otherwise. -/
theorem checkAttendee_countVal (req : Request) (roster : Option (List String))
    (sub : Submission) :
    countVal (caSub req roster sub) =
      countVal sub + (if caResult req roster sub = "2" then 1 else 0) := by
  rcases checkAttendee_cases req roster sub with ⟨hne, hs⟩ | ⟨email, rawKey, _, _, h2, _, hs⟩
  · rw [hs, if_neg hne, Nat.add_zero]
  · rw [hs, countVal_registerAttendee, if_pos h2]

/-- Over a whole run, the final counter counts exactly the `"2"` results. -/
theorem runRSVP_countVal (roster : Option (List String)) :
    ∀ (reqs : List Request) (sub : Submission),
      countVal (runRSVP roster reqs sub).2 =
        countVal sub + ((runRSVP roster reqs sub).1.count "2") := by
  intro reqs
  induction reqs with
  | nil => intro sub; simp [runRSVP]
  | cons r rs ih =>
    intro sub
    show countVal (runRSVP roster rs (caSub r roster sub)).2 =
      countVal sub + ((caResult r roster sub :: (runRSVP roster rs (caSub r roster sub)).1).count "2")
    rw [ih, checkAttendee_countVal r roster sub, List.count_cons]
    by_cases h2 : caResult r roster sub = "2"
    · simp [h2]
      omega
    · simp [h2]

/-! ## Invariant preservation -/

theorem reqInfo_clean {req : Request} (hreq : cleanReqB req = true) (email rawKey : String)
    (he : req.email = some email) : CleanInfoP (reqInfo req email rawKey) := by
  obtain ⟨hn, hd⟩ := Bool.and_eq_true_iff.mp hreq
  refine ⟨?_, ?_, sha256hex_all_hex rawKey⟩
  · cases hname : req.name with
    | none => simp [reqInfo, hname, cleanStrB]
    | some n =>
      rw [hname] at hn
      simpa [reqInfo, hname] using hn
  · rw [he] at hd
    simpa [reqInfo] using hd

/-- One registration call with clean display fields preserves the ledger
invariant. -/
theorem checkAttendee_inv {req : Request} {roster : Option (List String)}
    {sub : Submission} (hreq : cleanReqB req = true) (hinv : LedgerInv sub) :
    LedgerInv (caSub req roster sub) := by
  rcases checkAttendee_cases req roster sub with ⟨_, hs⟩ | ⟨email, rawKey, he, _, _, hrfw, hs⟩
  · rwa [hs]
  · rw [hs]
    have hinfo : CleanInfoP (reqInfo req email rawKey) := reqInfo_clean hreq email rawKey he
    rcases hinv with rfl | ⟨recs, hne, hall, hatt, hcnt, hnd⟩
    · right
      refine ⟨[reqInfo req email rawKey], by simp, by simp [hinfo], ?_, ?_, by simp⟩
      · simp [registerAttendee, emptySubmission, joinRecords]
      · simp [registerAttendee, emptySubmission]
    · right
      refine ⟨recs ++ [reqInfo req email rawKey], by simp, ?_, ?_, ?_, ?_⟩
      · intro i hi
        rcases List.mem_append.mp hi with hi | hi
        · exact hall i hi
        · rw [List.mem_singleton.mp hi]
          exact hinfo
      · simp only [registerAttendee, hatt]
        rw [joinRecords_append_one hne]
      · simp only [registerAttendee, hcnt]
        simp
      · rw [rfw_inv recs hatt hall hne] at hrfw
        have hany := Option.some.inj hrfw
        have hfresh : (reqInfo req email rawKey).hashed ∉ recs.map (fun i => i.hashed) := by
          intro hmem
          obtain ⟨i, hi, hih⟩ := List.mem_map.mp hmem
          have := List.any_eq_false.mp (by rw [hany]) i hi
          rw [hih] at this
          simp at this
        rw [List.map_append]
        simp only [List.map_cons, List.map_nil]
        rw [List.nodup_append]
        exact ⟨hnd, List.nodup_singleton _, by simpa using hfresh⟩

/-- The invariant holds after any run from the empty ledger whose
requests carry clean display fields. -/
theorem runRSVP_inv (roster : Option (List String)) :
    ∀ (reqs : List Request), (∀ r ∈ reqs, cleanReqB r = true) →
      ∀ (sub : Submission), LedgerInv sub → LedgerInv (runRSVP roster reqs sub).2 := by
  intro reqs
  induction reqs with
  | nil => intro _ sub hs; exact hs
  | cons r rs ih =>
    intro hclean sub hs
    show LedgerInv (runRSVP roster rs (caSub r roster sub)).2
    exact ih (fun x hx => hclean x (by simp [hx]))
      _ (checkAttendee_inv (hclean r (by simp)) hs)

/-! ## Reading the observables off the invariant -/

theorem hashOfLine_record_clean {i : AttendeeInfo} (hc : CleanInfoP i) :
    hashOfLine (recordLine i) = i.hashed := by
  rw [hashOfLine, csvParseLine_record_clean hc]
  rfl

theorem inv_linesOf {recs : List AttendeeInfo} {sub : Submission}
    (hatt : sub.attendees = some (joinRecords recs))
    (hall : ∀ i ∈ recs, CleanInfoP i) (hne : recs ≠ []) :
    linesOf sub = recs.map recordLine := by
  rw [linesOf, hatt]
  exact pySplitlines_joinRecords recs (fun i hi => recordLine_no_break (hall i hi)) hne

theorem inv_count_eq_lines {sub : Submission} (hinv : LedgerInv sub) :
    countVal sub = (linesOf sub).length := by
  rcases hinv with rfl | ⟨recs, hne, hall, hatt, hcnt, _⟩
  · rfl
  · rw [inv_linesOf hatt hall hne, countVal, hcnt]
    simp

theorem inv_nodup_hashes {sub : Submission} (hinv : LedgerInv sub) :
    ((linesOf sub).map hashOfLine).Nodup := by
  rcases hinv with rfl | ⟨recs, hne, hall, hatt, _, hnd⟩
  · simp [linesOf, emptySubmission]
  · rw [inv_linesOf hatt hall hne, List.map_map]
    have : (recs.map (hashOfLine ∘ recordLine)) = recs.map (fun i => i.hashed) :=
      List.map_congr_left (fun i hi => hashOfLine_record_clean (hall i hi))
    rw [this]
    exact hnd

/-! ## Scenario helpers -/

theorem beq_hex_false {a s : String} {c : Char} (hc : c ∈ a.data)
    (hhex : isHexLower c = false) : (a == sha256hexStr s) = false := by
  cases hb : a == sha256hexStr s with
  | false => rfl
  | true =>
    have hd := congrArg String.data (beq_iff_eq.mp hb)
    rw [hd] at hc
    exact absurd hc (hexStrB_not_mem (sha256hex_all_hex s) hhex)

theorem hex_beq_false {s a : String} {c : Char} (hc : c ∈ a.data)
    (hhex : isHexLower c = false) : (sha256hexStr s == a) = false := by
  cases hb : sha256hexStr s == a with
  | false => rfl
  | true =>
    have hd := congrArg String.data (beq_iff_eq.mp hb)
    rw [← hd] at hc
    exact absurd hc (hexStrB_not_mem (sha256hex_all_hex s) hhex)

/-- A first registration against the empty ledger always appends and
reports success. -/
theorem registerUnit_empty (info : AttendeeInfo) :
    registerUnit info emptySubmission = ("2", ⟨some (recordLine info), some 1⟩) := by
  simp [registerUnit, registeredForWorkshop, emptySubmission, registerAttendee]

theorem registerAttendee_join {info : AttendeeInfo} {recs : List AttendeeInfo}
    {sub : Submission} (hatt : sub.attendees = some (joinRecords recs))
    (hcnt : sub.attendeeRSVP = some recs.length) (hne : recs ≠ []) :
    (registerAttendee info sub).1 =
      ⟨some (joinRecords (recs ++ [info])), some (recs ++ [info]).length⟩ := by
  simp [registerAttendee, hatt, hcnt, joinRecords_append_one hne]

/-- The two-call comma scenario: the same credential registered twice
with display name `"a,b"`. -/
def infoComma : AttendeeInfo := ⟨"a,b", "eve@example.org", sha256hexStr "pw"⟩

def reqComma : Request := ⟨some "a,b", some "eve@example.org", some "pw"⟩

def rosterPw : Option (List String) := some [sha256hexStr "pw"]

def subComma1 : Submission := caSub reqComma rosterPw emptySubmission

def subComma2 : Submission := caSub reqComma rosterPw subComma1

theorem recordLine_infoComma_data :
    (recordLine infoComma).data =
      ['a'] ++ ',' :: (('b' :: ' ' :: "eve@example.org".data) ++
        ',' :: (sha256hexStr "pw").data) := by
  rw [recordLine_data]
  rfl

theorem recordLine_infoComma_no_break :
    ∀ c ∈ (recordLine infoComma).data, isLineBreak c = false := by
  have hpre : ∀ c ∈ 'b' :: ' ' :: "eve@example.org".data, isLineBreak c = false := by
    decide
  intro c hm
  rw [recordLine_infoComma_data] at hm
  rcases List.mem_append.mp hm with h | h
  · rw [List.mem_singleton.mp h]; decide
  · rcases List.mem_cons.mp h with h | h
    · rw [h]; decide
    · rcases List.mem_append.mp h with h | h
      · exact hpre c h
      · rcases List.mem_cons.mp h with h | h
        · rw [h]; decide
        · exact hex_not_break (hexStrB_mem (sha256hex_all_hex "pw") c h)

theorem csvParseLine_infoComma :
    csvParseLine (recordLine infoComma) =
      ["a", ⟨'b' :: ' ' :: "eve@example.org".data⟩, sha256hexStr "pw"] := by
  have hne : (recordLine infoComma).data.isEmpty = false := by
    rw [recordLine_infoComma_data]
    rfl
  have hsplit : splitOnChar ',' (recordLine infoComma).data =
      [['a'], 'b' :: ' ' :: "eve@example.org".data, (sha256hexStr "pw").data] := by
    rw [recordLine_infoComma_data, splitOnChar_append_cons (by decide),
      splitOnChar_append_cons (by decide),
      splitOnChar_of_not_mem (hexStrB_not_mem (sha256hex_all_hex "pw") (by decide))]
  rw [csvParseLine, hne]
  simp only [Bool.false_eq_true, if_false]
  rw [hsplit]
  rfl

theorem rfw_subComma1 :
    registeredForWorkshop infoComma ⟨some (recordLine infoComma), some 1⟩ = some false := by
  simp only [registeredForWorkshop]
  rw [beq_empty_false (recordLine_data_ne_nil infoComma)]
  simp only [Bool.false_eq_true, if_false]
  have hlines : pySplitlines (recordLine infoComma) = [recordLine infoComma] :=
    pySplitlines_joinRecords [infoComma]
      (by intro i hi; rw [List.mem_singleton.mp hi]; exact recordLine_infoComma_no_break)
      (by simp)
  rw [hlines]
  simp only [List.map_cons, List.map_nil]
  rw [csvParseLine_infoComma, scanRows]
  simp only [List.isEmpty_cons, Bool.false_eq_true, if_false, List.getElem?_cons_succ,
    List.getElem?_cons_zero]
  have hstrip : pyStrip (⟨'b' :: ' ' :: "eve@example.org".data⟩ : String) =
      ⟨'b' :: ' ' :: "eve@example.org".data⟩ := by decide
  have hih : infoComma.hashed = sha256hexStr "pw" := rfl
  rw [hstrip, hih, hexStrB_pyStrip (sha256hex_all_hex "pw"),
    beq_hex_false (a := (⟨'b' :: ' ' :: "eve@example.org".data⟩ : String)) (c := ' ')
      (by decide) (by decide)]
  rfl

theorem rosterPw_match :
    (([sha256hexStr "pw"]).any fun l => lineMatches (sha256hexStr "pw") l) = true := by
  simp [lineMatches_self]

theorem commaScenario :
    caResult reqComma rosterPw emptySubmission = "2" ∧
    subComma1 = ⟨some (recordLine infoComma), some 1⟩ ∧
    caResult reqComma rosterPw subComma1 = "2" ∧
    subComma2 = ⟨some (recordLine infoComma ++ "\n" ++ recordLine infoComma), some 2⟩ := by
  have hri : reqInfo reqComma "eve@example.org" "pw" = infoComma := rfl
  have h1 := checkAttendee_match reqComma emptySubmission rfl rfl rosterPw_match
  rw [hri, registerUnit_empty] at h1
  have hsub1 : subComma1 = ⟨some (recordLine infoComma), some 1⟩ := h1.2
  have h2 := checkAttendee_match reqComma subComma1 rfl rfl rosterPw_match
  rw [hri] at h2
  have hru2 : registerUnit infoComma subComma1 =
      ("2", ⟨some (recordLine infoComma ++ "\n" ++ recordLine infoComma), some 2⟩) := by
    rw [hsub1]
    simp [registerUnit, rfw_subComma1, registerAttendee]
  rw [hru2] at h2
  exact ⟨h1.1, hsub1, h2.1, h2.2⟩

/-- The newline scenario: one registration whose display name contains a
line break. -/
def infoNl : AttendeeInfo := ⟨"a\nb", "e", sha256hexStr "pw"⟩

def reqNl : Request := ⟨some "a\nb", some "e", some "pw"⟩

def subNl1 : Submission := caSub reqNl rosterPw emptySubmission

theorem recordLine_infoNl_data :
    (recordLine infoNl).data =
      ['a'] ++ '\n' :: ('b' :: ' ' :: 'e' :: ',' :: (sha256hexStr "pw").data) := by
  rw [recordLine_data]
  rfl

theorem nlScenario :
    caResult reqNl rosterPw emptySubmission = "2" ∧
    subNl1 = ⟨some (recordLine infoNl), some 1⟩ := by
  have hri : reqInfo reqNl "e" "pw" = infoNl := rfl
  have h1 := checkAttendee_match reqNl emptySubmission rfl rfl rosterPw_match
  rw [hri, registerUnit_empty] at h1
  exact h1

theorem pySplitlines_recordLine_infoNl :
    pySplitlines (recordLine infoNl) =
      ["a", ⟨'b' :: ' ' :: 'e' :: ',' :: (sha256hexStr "pw").data⟩] := by
  have htail : ∀ c ∈ 'b' :: ' ' :: 'e' :: ',' :: (sha256hexStr "pw").data,
      isLineBreak c = false := by
    intro c hm
    rcases List.mem_cons.mp hm with h | h
    · rw [h]; decide
    · rcases List.mem_cons.mp h with h | h
      · rw [h]; decide
      · rcases List.mem_cons.mp h with h | h
        · rw [h]; decide
        · rcases List.mem_cons.mp h with h | h
          · rw [h]; decide
          · exact hex_not_break (hexStrB_mem (sha256hex_all_hex "pw") c h)
  rw [pySplitlines, recordLine_infoNl_data, splitLinesList_append (by decide),
    splitLinesList_no_break htail (by simp)]
  rfl

/-! ## Claims -/

/-- The matching predicate exactly as the spec words it: the digest and
the roster line compared after stripping dash separators and surrounding
whitespace from BOTH values. -/
def lineMatchesSpec (digest line : String) : Bool :=
  pyStrip (stripDashes digest) == pyStrip (stripDashes line)

/-- C9 (confirmed): for every roster line and raw secret, the source's
per-line credential test (`authKey == line.replace("-","").strip()`,
which normalizes only the roster side) succeeds exactly when the secret's
hex digest and the roster line are equal after stripping dashes and
surrounding whitespace from both compared values — the digest side's
normalization is a no-op because a hex digest contains neither dashes nor
whitespace.  In particular a roster entry `"ab-cd-ef"` matches a digest
`"abcdef"` under the spec's both-sides comparison. -/
theorem c9_dash_normalized_matching :
    (∀ secret line : String,
      lineMatches (sha256hexStr secret) line =
        lineMatchesSpec (sha256hexStr secret) line) ∧
    lineMatchesSpec "abcdef" "ab-cd-ef" = true := by
  constructor
  · intro secret line
    rw [lineMatches, lineMatchesSpec, hexStrB_stripDashes (sha256hex_all_hex secret),
      hexStrB_pyStrip (sha256hex_all_hex secret)]
  · decide

/-- C8 (confirmed): a request whose raw secret's digest matches no roster
line is rejected — the call returns the source's failure/rejection code
`"1"` — and the submission is left exactly as it was (no mutation).  The
source encodes `InvalidCredential` as the result string `"1"`. -/
theorem c8_rejection_without_mutation {req : Request} {lines : List String}
    {sub : Submission} {rawKey : String} (hk : req.authKey = some rawKey)
    (habsent : ∀ l ∈ lines, lineMatches (sha256hexStr rawKey) l = false) :
    caResult req (some lines) sub = "1" ∧ caSub req (some lines) sub = sub := by
  cases he : req.email with
  | none => exact checkAttendee_no_email req (some lines) sub he
  | some email => exact checkAttendee_no_match req sub he hk habsent

/-- Witness for C8 at a concrete request, roster and ledger state. -/
theorem c8_rejection_witness :
    ((⟨some "Alice", some "alice@example.org", some "wrongSecret"⟩ : Request).authKey =
        some "wrongSecret") ∧
    (∀ l ∈ ([] : List String), lineMatches (sha256hexStr "wrongSecret") l = false) ∧
    (caResult ⟨some "Alice", some "alice@example.org", some "wrongSecret"⟩ (some [])
        ⟨some "x y,abc", some 1⟩ = "1" ∧
     caSub ⟨some "Alice", some "alice@example.org", some "wrongSecret"⟩ (some [])
        ⟨some "x y,abc", some 1⟩ = ⟨some "x y,abc", some 1⟩) :=
  ⟨rfl, by simp, c8_rejection_without_mutation rfl (by simp)⟩

/-- C10 (refuted — code bug): source line 22 is
`print(request.POST['authKey'])`: the raw secret itself is printed.  The
printed/logged output of a `checkAttendee` call on a request carrying the
raw secret `"leaked-raw-secret"` contains that raw secret verbatim. -/
theorem c10_raw_secret_logged :
    "leaked-raw-secret" ∈
      caLog ⟨some "Alice", some "a@x.org", some "leaked-raw-secret"⟩ none
        emptySubmission := by
  show "leaked-raw-secret" ∈
    (checkAttendee ⟨some "Alice", some "a@x.org", some "leaked-raw-secret"⟩ none
      emptySubmission).2.2
  simp [checkAttendee]

/-- C5 (refuted — code bug): the three failure causes are not
distinguishable.  A request missing the required email field, a request
whose secret's digest is absent from the roster, and a request served
while the roster store is unreadable all produce the same result `"1"`
(the blanket `except: return "1"` and the loop fall-through), not three
distinct outcomes. -/
theorem c5_collapsed_failures :
    caResult ⟨some "Alice", none, some "secretA"⟩ (some ["zz-roster-entry"])
        emptySubmission = "1" ∧
    caResult ⟨some "Alice", some "a@x.org", some "nonRosterSecret"⟩
        (some ["zz-roster-entry"]) emptySubmission = "1" ∧
    caResult ⟨some "Alice", some "a@x.org", some "secretA"⟩ none
        emptySubmission = "1" := by
  have hnomatch : ∀ l ∈ ["zz-roster-entry"],
      lineMatches (sha256hexStr "nonRosterSecret") l = false := by
    intro l hl
    rw [List.mem_singleton.mp hl, lineMatches]
    have hz : pyStrip (stripDashes "zz-roster-entry") = "zzrosterentry" := by decide
    rw [hz]
    exact hex_beq_false (c := 'z') (by decide) (by decide)
  exact ⟨(checkAttendee_no_email ⟨some "Alice", none, some "secretA"⟩
      (some ["zz-roster-entry"]) emptySubmission rfl).1,
    (checkAttendee_no_match ⟨some "Alice", some "a@x.org", some "nonRosterSecret"⟩
      emptySubmission rfl rfl hnomatch).1,
    (checkAttendee_no_roster ⟨some "Alice", some "a@x.org", some "secretA"⟩
      emptySubmission rfl rfl).1⟩

/-- C6 (refuted — code bug): a stored attendee record with no
comma-separated hash field is not skipped.  With the ledger text
`"malformedrecord"` and a valid credential, `registeredForWorkshop`
evaluates `registeredAttendee[1]` on the one-field row and raises
`IndexError`; the blanket `except` turns the whole call into the failure
result `"1"` instead of completing the registration. -/
theorem c6_malformed_record_fatal :
    caResult ⟨some "Alice", some "a@x.org", some "secretA"⟩
        (some [sha256hexStr "secretA"]) ⟨some "malformedrecord", some 1⟩ = "1" ∧
    caSub ⟨some "Alice", some "a@x.org", some "secretA"⟩
        (some [sha256hexStr "secretA"]) ⟨some "malformedrecord", some 1⟩ =
      ⟨some "malformedrecord", some 1⟩ := by
  have hmatch : (([sha256hexStr "secretA"]).any
      fun l => lineMatches (sha256hexStr "secretA") l) = true := by
    simp [lineMatches_self]
  have h := checkAttendee_match ⟨some "Alice", some "a@x.org", some "secretA"⟩
    ⟨some "malformedrecord", some 1⟩ rfl rfl hmatch
  have hrfw : registeredForWorkshop
      (reqInfo ⟨some "Alice", some "a@x.org", some "secretA"⟩ "a@x.org" "secretA")
      ⟨some "malformedrecord", some 1⟩ = none := by
    simp only [registeredForWorkshop]
    rw [beq_empty_false (by decide)]
    simp only [Bool.false_eq_true, if_false]
    have hl : pySplitlines "malformedrecord" = ["malformedrecord"] := by decide
    rw [hl]
    simp only [List.map_cons, List.map_nil]
    have hcsv : csvParseLine "malformedrecord" = ["malformedrecord"] := by decide
    rw [hcsv, scanRows]
    rfl
  rw [h.1, h.2]
  simp [registerUnit, hrfw]

/-- The request-dispatch layer is not part of `src/`.  Modelled from the
spec: §5's scheduling model — many `register` calls for the same workshop
may execute concurrently, each request handler holding its own loaded
copy of the submission row; `submission.save()` writes the whole row
back.  `raceTwo` is the schedule load(A), load(B), save(A), save(B): both
calls read the same initial row, A's save is then overwritten by B's. -/
def raceTwo (iA iB : AttendeeInfo) (db : Submission) : String × String × Submission :=
  let a := registerUnit iA db
  let b := registerUnit iB db
  (a.1, b.1, b.2)

/-- C4 (refuted — code bug): the dedup-check-then-append unit has no
per-workshop serialization, so two concurrent registrations with two
distinct valid credential hashes can both report `Registered` (`"2"`)
while the final saved ledger contains only one attendee record — B's
whole-row save overwrites A's append (lost update).  The claim requires
K = 2 records; the code retains 1. -/
theorem c4_lost_update :
    (raceTwo ⟨"Alice", "a@x.org", "aaaa1111"⟩ ⟨"Bob", "b@x.org", "bbbb2222"⟩
        emptySubmission).1 = "2" ∧
    (raceTwo ⟨"Alice", "a@x.org", "aaaa1111"⟩ ⟨"Bob", "b@x.org", "bbbb2222"⟩
        emptySubmission).2.1 = "2" ∧
    (linesOf (raceTwo ⟨"Alice", "a@x.org", "aaaa1111"⟩ ⟨"Bob", "b@x.org", "bbbb2222"⟩
        emptySubmission).2.2).length = 1 := by
  refine ⟨rfl, rfl, ?_⟩
  decide

/-- C1 counterexample: with the attendee display name `"a,b"` (a valid
roster credential), the first call returns `"2"` but the second call with
the same credential returns `"2"` again — not `"3"` — and mutates the
ledger a second time, because the comma in the name shifts the csv field
the dedup scan reads. -/
theorem c1_counterexample :
    caResult reqComma rosterPw emptySubmission = "2" ∧
    caResult reqComma rosterPw subComma1 = "2" ∧
    caResult reqComma rosterPw subComma1 ≠ "3" ∧
    subComma2 ≠ subComma1 := by
  obtain ⟨h1, hs1, h2, hs2⟩ := commaScenario
  refine ⟨h1, h2, by rw [h2]; decide, ?_⟩
  rw [hs1, hs2]
  intro he
  have hc := congrArg Submission.attendeeRSVP he
  simp at hc


/-- C1 (corrected): idempotent registration holds once the optional
display fields are clean (no comma, double quote or Python
line-boundary character — the characters that break the free-text record
format): from any well-formed
ledger state not yet containing the credential's digest, a call with a
roster-matching secret returns `"2"` (Registered), and a second identical
call returns `"3"` (AlreadyRegistered) leaving the ledger exactly in the
state produced by the first call alone. -/
theorem c1_idempotent_amended {req : Request} {lines : List String} {sub : Submission}
    {email rawKey : String}
    (hreq : cleanReqB req = true) (he : req.email = some email)
    (hk : req.authKey = some rawKey)
    (hm : (lines.any fun l => lineMatches (sha256hexStr rawKey) l) = true)
    (hinv : LedgerInv sub)
    (hfresh : sha256hexStr rawKey ∉ (linesOf sub).map hashOfLine) :
    caResult req (some lines) sub = "2" ∧
    caResult req (some lines) (caSub req (some lines) sub) = "3" ∧
    caSub req (some lines) (caSub req (some lines) sub) = caSub req (some lines) sub := by
  have hinfo := reqInfo_clean hreq email rawKey he
  have hih : (reqInfo req email rawKey).hashed = sha256hexStr rawKey := rfl
  have h1 := checkAttendee_match req sub he hk hm
  have hrfw1 : registeredForWorkshop (reqInfo req email rawKey) sub = some false := by
    rcases hinv with rfl | ⟨recs, hne, hall, hatt, hcnt, hnd⟩
    · rfl
    · rw [rfw_inv recs hatt hall hne]
      congr 1
      apply List.any_eq_false.mpr
      intro i hi
      rw [hih, hexStrB_pyStrip (sha256hex_all_hex rawKey), hexStrB_pyStrip (hall i hi).2.2]
      intro heq
      apply hfresh
      rw [inv_linesOf hatt hall hne, List.map_map]
      refine List.mem_map.mpr ⟨i, hi, ?_⟩
      show hashOfLine (recordLine i) = sha256hexStr rawKey
      rw [hashOfLine_record_clean (hall i hi)]
      exact beq_iff_eq.mp heq
  have hru1 : registerUnit (reqInfo req email rawKey) sub =
      ("2", (registerAttendee (reqInfo req email rawKey) sub).1) := by
    simp [registerUnit, hrfw1, registerAttendee]
  rw [hru1] at h1
  have h2 := checkAttendee_match req (caSub req (some lines) sub) he hk hm
  have hrfw2 : registeredForWorkshop (reqInfo req email rawKey)
      (caSub req (some lines) sub) = some true := by
    rw [h1.2]
    rcases hinv with rfl | ⟨recs, hne, hall, hatt, hcnt, hnd⟩
    · have hra : (registerAttendee (reqInfo req email rawKey) emptySubmission).1 =
          ⟨some (joinRecords [reqInfo req email rawKey]), some 1⟩ := rfl
      rw [hra, rfw_inv [reqInfo req email rawKey] rfl
        (by intro i hi; rw [List.mem_singleton.mp hi]; exact hinfo) (by simp)]
      simp
    · rw [registerAttendee_join hatt hcnt hne,
        rfw_inv (recs ++ [reqInfo req email rawKey]) rfl ?_ (by simp)]
      · simp [List.any_append]
      · intro i hi
        rcases List.mem_append.mp hi with hi | hi
        · exact hall i hi
        · rw [List.mem_singleton.mp hi]
          exact hinfo
  have hru2 : registerUnit (reqInfo req email rawKey) (caSub req (some lines) sub) =
      ("3", caSub req (some lines) sub) := by
    simp [registerUnit, hrfw2]
  rw [hru2] at h2
  exact ⟨h1.1, h2.1, h2.2⟩

/-- Witness for C1's amended statement: `"secretA"` registered twice from
the empty ledger. -/
theorem c1_idempotent_witness :
    cleanReqB ⟨some "Alice", some "w@x.org", some "secretA"⟩ = true ∧
    (([sha256hexStr "secretA"]).any fun l => lineMatches (sha256hexStr "secretA") l) = true ∧
    LedgerInv emptySubmission ∧
    sha256hexStr "secretA" ∉ (linesOf emptySubmission).map hashOfLine ∧
    (caResult ⟨some "Alice", some "w@x.org", some "secretA"⟩
        (some [sha256hexStr "secretA"]) emptySubmission = "2" ∧
     caResult ⟨some "Alice", some "w@x.org", some "secretA"⟩
        (some [sha256hexStr "secretA"])
        (caSub ⟨some "Alice", some "w@x.org", some "secretA"⟩
          (some [sha256hexStr "secretA"]) emptySubmission) = "3" ∧
     caSub ⟨some "Alice", some "w@x.org", some "secretA"⟩
        (some [sha256hexStr "secretA"])
        (caSub ⟨some "Alice", some "w@x.org", some "secretA"⟩
          (some [sha256hexStr "secretA"]) emptySubmission) =
       caSub ⟨some "Alice", some "w@x.org", some "secretA"⟩
        (some [sha256hexStr "secretA"]) emptySubmission) :=
  ⟨by decide, by simp [lineMatches_self], Or.inl rfl, by simp [linesOf, emptySubmission],
   c1_idempotent_amended (by decide) rfl rfl (by simp [lineMatches_self]) (Or.inl rfl)
     (by simp [linesOf, emptySubmission])⟩

/-- C2 counterexample: two registration calls with the valid credential
`"pw"` and display name `"a,b"`, starting from the empty ledger, leave
two stored attendee records whose credential-hash fields are equal (the
two stored lines are identical), violating per-workshop uniqueness. -/
theorem c2_counterexample :
    caResult reqComma rosterPw emptySubmission = "2" ∧
    ¬ ((linesOf subComma2).map hashOfLine).Nodup := by
  obtain ⟨h1, _, _, hs2⟩ := commaScenario
  refine ⟨h1, ?_⟩
  have hj : recordLine infoComma ++ "\n" ++ recordLine infoComma =
      joinRecords [infoComma, infoComma] := rfl
  have hlines : linesOf subComma2 = [recordLine infoComma, recordLine infoComma] := by
    rw [hs2, linesOf]
    show pySplitlines (recordLine infoComma ++ "\n" ++ recordLine infoComma) = _
    rw [hj, pySplitlines_joinRecords [infoComma, infoComma]
      (by intro i hi; rcases List.mem_cons.mp hi with h | h
          · rw [h]; exact recordLine_infoComma_no_break
          · rw [List.mem_singleton.mp h]; exact recordLine_infoComma_no_break)
      (by simp)]
    rfl
  rw [hlines]
  simp

/-- C2 (corrected): per-workshop uniqueness of stored credential hashes
holds for every sequence of registration calls from the empty ledger
whose display fields are free of commas, double quotes and Python
line-boundary characters; an arbitrary display name can defeat the dedup
scan as in the counterexample. -/
theorem c2_uniqueness_amended (roster : Option (List String)) (reqs : List Request)
    (hclean : ∀ r ∈ reqs, cleanReqB r = true) :
    ((linesOf (runRSVP roster reqs emptySubmission).2).map hashOfLine).Nodup :=
  inv_nodup_hashes (runRSVP_inv roster reqs hclean emptySubmission (Or.inl rfl))

/-- Witness for C2's amended statement: a concrete two-request run. -/
theorem c2_uniqueness_witness :
    (∀ r ∈ [(⟨some "Alice", some "a@x.org", some "k1"⟩ : Request),
            (⟨none, some "b@x.org", some "k2"⟩ : Request)], cleanReqB r = true) ∧
    ((linesOf (runRSVP (some [sha256hexStr "k1"])
        [⟨some "Alice", some "a@x.org", some "k1"⟩, ⟨none, some "b@x.org", some "k2"⟩]
        emptySubmission).2).map hashOfLine).Nodup :=
  ⟨by decide, c2_uniqueness_amended (some [sha256hexStr "k1"]) _ (by decide)⟩

/-- C3 counterexample: one successful (`"2"`) registration whose display
name contains a newline stores text that the program itself reads back as
TWO attendee records (lines), while the counter says 1: the count no
longer equals the number of stored records. -/
theorem c3_counterexample :
    caResult reqNl rosterPw emptySubmission = "2" ∧
    countVal subNl1 = 1 ∧
    (linesOf subNl1).length = 2 := by
  obtain ⟨h1, hs1⟩ := nlScenario
  refine ⟨h1, by rw [hs1]; rfl, ?_⟩
  rw [hs1, linesOf]
  show (pySplitlines (recordLine infoNl)).length = 2
  rw [pySplitlines_recordLine_infoNl]
  rfl

/-- C3 (corrected): with display fields free of commas, double quotes
and Python line-boundary characters, the count invariant holds at every
observable point of every run from the empty ledger: the counter (null
read as 0) equals the number of stored attendee records, and both equal
the number of calls that returned `"2"` (Registered); `"3"`/`"1"`
outcomes leave both unchanged.  Without that restriction a line break in
a display name breaks the equality, as in the counterexample. -/
theorem c3_count_invariant_amended (roster : Option (List String)) (reqs : List Request)
    (hclean : ∀ r ∈ reqs, cleanReqB r = true) :
    countVal (runRSVP roster reqs emptySubmission).2 =
        (linesOf (runRSVP roster reqs emptySubmission).2).length ∧
    countVal (runRSVP roster reqs emptySubmission).2 =
        (runRSVP roster reqs emptySubmission).1.count "2" := by
  constructor
  · exact inv_count_eq_lines (runRSVP_inv roster reqs hclean emptySubmission (Or.inl rfl))
  · have h := runRSVP_countVal roster reqs emptySubmission
    simpa [countVal, emptySubmission] using h

/-- Witness for C3's amended statement: a concrete three-request run
(a success, a duplicate and a rejected secret, when the roster holds the
first digest). -/
theorem c3_count_invariant_witness :
    (∀ r ∈ [(⟨some "Alice", some "a@x.org", some "k1"⟩ : Request),
            (⟨some "Alice", some "a@x.org", some "k1"⟩ : Request),
            (⟨none, some "b@x.org", some "k2"⟩ : Request)], cleanReqB r = true) ∧
    (countVal (runRSVP (some [sha256hexStr "k1"])
        [⟨some "Alice", some "a@x.org", some "k1"⟩,
         ⟨some "Alice", some "a@x.org", some "k1"⟩,
         ⟨none, some "b@x.org", some "k2"⟩] emptySubmission).2 =
      (linesOf (runRSVP (some [sha256hexStr "k1"])
        [⟨some "Alice", some "a@x.org", some "k1"⟩,
         ⟨some "Alice", some "a@x.org", some "k1"⟩,
         ⟨none, some "b@x.org", some "k2"⟩] emptySubmission).2).length ∧
     countVal (runRSVP (some [sha256hexStr "k1"])
        [⟨some "Alice", some "a@x.org", some "k1"⟩,
         ⟨some "Alice", some "a@x.org", some "k1"⟩,
         ⟨none, some "b@x.org", some "k2"⟩] emptySubmission).2 =
      (runRSVP (some [sha256hexStr "k1"])
        [⟨some "Alice", some "a@x.org", some "k1"⟩,
         ⟨some "Alice", some "a@x.org", some "k1"⟩,
         ⟨none, some "b@x.org", some "k2"⟩] emptySubmission).1.count "2") :=
  ⟨by decide, c3_count_invariant_amended (some [sha256hexStr "k1"]) _ (by decide)⟩

/-- C7 counterexample: a request with a valid roster credential but no
email field does not proceed: the `KeyError` on `request.POST['email']`
hits the blanket `except` and the call returns `"1"`, neither `"2"`
(Registered) nor `"3"` (AlreadyRegistered). -/
theorem c7_counterexample :
    caResult ⟨some "Alice", none, some "secretA"⟩ (some [sha256hexStr "secretA"])
        emptySubmission = "1" ∧
    caResult ⟨some "Alice", none, some "secretA"⟩ (some [sha256hexStr "secretA"])
        emptySubmission ≠ "2" ∧
    caResult ⟨some "Alice", none, some "secretA"⟩ (some [sha256hexStr "secretA"])
        emptySubmission ≠ "3" := by
  have h := (checkAttendee_no_email ⟨some "Alice", none, some "secretA"⟩
    (some [sha256hexStr "secretA"]) emptySubmission rfl).1
  exact ⟨h, by rw [h]; decide, by rw [h]; decide⟩

/-- C7 (corrected): only the name field is optional.  A request with the
name absent, the email present and a roster-matching secret proceeds from
any well-formed ledger and returns `"2"` or `"3"`; a request with the
email absent fails with `"1"` and no mutation — absence of email IS an
error in this code (only `name` has the defaulting `try/except`). -/
theorem c7_optional_fields_amended {req req2 : Request} {lines : List String}
    {sub sub2 : Submission} {email rawKey : String} {roster2 : Option (List String)}
    (hname : req.name = none) (he : req.email = some email)
    (hk : req.authKey = some rawKey)
    (hm : (lines.any fun l => lineMatches (sha256hexStr rawKey) l) = true)
    (hinv : LedgerInv sub) (he2 : req2.email = none) :
    (caResult req (some lines) sub = "2" ∨ caResult req (some lines) sub = "3") ∧
    caResult req2 roster2 sub2 = "1" ∧ caSub req2 roster2 sub2 = sub2 := by
  refine ⟨?_, checkAttendee_no_email req2 roster2 sub2 he2⟩
  have h := checkAttendee_match req sub he hk hm
  rcases hinv with rfl | ⟨recs, hne, hall, hatt, hcnt, hnd⟩
  · left
    rw [h.1, registerUnit_empty]
  · cases hany : recs.any
        (fun i => pyStrip i.hashed == pyStrip (reqInfo req email rawKey).hashed) with
    | false =>
      left
      rw [h.1]
      simp [registerUnit, rfw_inv recs hatt hall hne, hany, registerAttendee]
    | true =>
      right
      rw [h.1]
      simp [registerUnit, rfw_inv recs hatt hall hne, hany]

/-- Witness for C7's amended statement: a name-less request with a valid
secret against the empty ledger, and an email-less request. -/
theorem c7_optional_fields_witness :
    ((⟨none, some "b@x.org", some "secretA"⟩ : Request).name = none) ∧
    (([sha256hexStr "secretA"]).any fun l => lineMatches (sha256hexStr "secretA") l) = true ∧
    LedgerInv emptySubmission ∧
    ((⟨some "Bob", none, some "secretA"⟩ : Request).email = none) ∧
    ((caResult ⟨none, some "b@x.org", some "secretA"⟩ (some [sha256hexStr "secretA"])
        emptySubmission = "2" ∨
      caResult ⟨none, some "b@x.org", some "secretA"⟩ (some [sha256hexStr "secretA"])
        emptySubmission = "3") ∧
     caResult ⟨some "Bob", none, some "secretA"⟩ none ⟨some "x", some 3⟩ = "1" ∧
     caSub ⟨some "Bob", none, some "secretA"⟩ none ⟨some "x", some 3⟩ = ⟨some "x", some 3⟩) :=
  ⟨rfl, by simp [lineMatches_self], Or.inl rfl, rfl,
   c7_optional_fields_amended rfl rfl rfl (by simp [lineMatches_self]) (Or.inl rfl) rfl⟩
